import Mathlib

/-!
Shallow embedding of the tsuriba-tools-ui derivation logic:

* `src/src/App.tsx` — `toHourFraction`, `interpolateHeight`, `tideEvents`
  (merge + stable sort of high/low tide events), `chartData` (dense 24-point
  plotting series), `lowMarkers` / `highMarkers` (interpolated event markers).
* `src/unnamed/part_001` — `todayJst`, `normalizeDate` (date canonicalization).

JavaScript numbers are modelled as exact rationals (`ℚ`); JavaScript strings
are Lean `String`s, with the string operations the code uses (`trim`,
`split(":")`, `Number(...)` on digit components, `padStart(2, "0")`)
implemented structurally on the underlying character lists.  `null` and
`undefined` slots of the hourly array are both modelled as `none`;
out-of-bounds array reads (which yield `undefined` in JavaScript) likewise
yield `none`.  `Array.prototype.sort`, which ECMAScript specifies to be
stable, is modelled by a stable insertion sort.
-/

namespace TsuribaUI

/-! ### JavaScript string primitives -/

/-- Whitespace test used by `String.prototype.trim`. -/
def isWs (c : Char) : Bool := c.isWhitespace

/-- `trim` on the character list: drop whitespace from both ends. -/
def trimList (cs : List Char) : List Char :=
  ((cs.dropWhile isWs).reverse.dropWhile isWs).reverse

/-- JavaScript `s.trim()`. -/
def jsTrim (s : String) : String := ⟨trimList s.toList⟩

/-- JavaScript `s.split(sep)` for a single-character separator: always returns
at least one group; `"".split(":") = [""]`. -/
def splitOnChar (sep : Char) : List Char → List (List Char)
  | [] => [[]]
  | c :: rest =>
    if c = sep then [] :: splitOnChar sep rest
    else
      match splitOnChar sep rest with
      | [] => [[c]]
      | g :: gs => (c :: g) :: gs

/-- Decimal value of a digit string. -/
def digitsToNat (cs : List Char) : Nat :=
  cs.foldl (fun a c => a * 10 + (c.toNat - 48)) 0

/-- JavaScript `Number(s)` restricted to the nonnegative-decimal-digit strings
this code ever feeds it ("HH" / "MM" / regex captures): a nonempty all-digit
string parses to its value, anything else is NaN (`none`). -/
def jsNumberNat (cs : List Char) : Option Nat :=
  if cs.isEmpty then none
  else if cs.all Char.isDigit then some (digitsToNat cs)
  else none

/-- `Number.isFinite(Number(s)) ? Number(s) : 0` — the NaN-defaulting parse. -/
def numOrZero (cs : List Char) : Nat := (jsNumberNat cs).getD 0

/-- JavaScript `String(n).padStart(2, "0")` for a natural number. -/
def pad2 (n : Nat) : String := if n < 10 then "0" ++ toString n else toString n

/-! ### `src/src/App.tsx` — tide series derivation -/

/-- A high/low tide event as delivered by the API: `{ time, height_cm }`. -/
structure ApiTideEvent where
  time : String
  height_cm : ℚ
deriving DecidableEq

/-- An event tagged with its kind string (`"満潮"` for high, `"干潮"` for low),
as built inside `tideEvents`. -/
structure TaggedEvent where
  type : String
  time : String
  height : ℚ
deriving DecidableEq

/-- One point of the dense plotting series (`chartData`). -/
structure ChartPoint where
  x : Nat
  label : String
  height : Option ℚ
deriving DecidableEq

/-- An interpolated marker `{ x, height }` (`lowMarkers` / `highMarkers`). -/
structure Marker where
  x : ℚ
  height : ℚ
deriving DecidableEq

/-- `hourly_cm[i]` with both `null` and out-of-bounds `undefined` as `none`. -/
def nth (hourly : List (Option ℚ)) (i : Nat) : Option ℚ := (hourly.get? i).join

/-- Array indexing with a (possibly negative) integer index, as produced by
`Math.floor`: negative indices read `undefined`. -/
def nthI (hourly : List (Option ℚ)) : Int → Option ℚ
  | Int.ofNat n => nth hourly n
  | Int.negSucc _ => none

/-- `toHourFraction` (App.tsx lines 117–124):
`const [hStr, mStr = "0"] = time.split(":")`, parse both with `Number`,
clamp the hour to `[0,23]` and the minute to `[0,59]` (NaN becomes 0),
return `hour + minute / 60`. -/
def toHourFraction (time : String) : ℚ :=
  let parts := splitOnChar ':' time.toList
  let hStr := parts.getD 0 []
  let mStr := parts.getD 1 ['0']
  let h := numOrZero hStr
  let m := numOrZero mStr
  let hour := min 23 (max 0 h)
  let minute := min 59 (max 0 m)
  (hour : ℚ) + (minute : ℚ) / 60

/-- `interpolateHeight` (App.tsx lines 126–136):
`baseHour = Math.floor(f)`, `nextHour = min(23, baseHour + 1)`;
absent base sample → `null`; `baseHour == 23` → base sample;
absent next sample → base sample; otherwise linear interpolation. -/
def interpolateHeight (hourly : List (Option ℚ)) (hourFraction : ℚ) : Option ℚ :=
  match nthI hourly ⌊hourFraction⌋ with
  | none => none
  | some h0 =>
    if ⌊hourFraction⌋ = 23 then some h0
    else
      match nthI hourly (min 23 (⌊hourFraction⌋ + 1)) with
      | none => some h0
      | some h1 => some (h0 + (h1 - h0) * (hourFraction - (⌊hourFraction⌋ : ℚ)))

/-- `toMinutes` (the comparator key inside the `tideEvents` sort,
App.tsx lines 142–145): `hour * 60 + minute`, missing / non-numeric
components count as 0, no clamping. -/
def toMinutes (t : String) : Nat :=
  let parts := splitOnChar ':' t.toList
  numOrZero (parts.getD 0 []) * 60 + numOrZero (parts.getD 1 [])

/-- The tagged concatenation built inside `tideEvents`: highs first
(tagged `"満潮"`), then lows (tagged `"干潮"`). -/
def tagEvents (highs lows : List ApiTideEvent) : List TaggedEvent :=
  highs.map (fun h => ⟨"満潮", h.time, h.height_cm⟩) ++
    lows.map (fun l => ⟨"干潮", l.time, l.height_cm⟩)

/-- Stable insertion step: place `x` before the first element whose key is
`≥` its own (equal keys keep the earlier element first). -/
def insertByTime (x : TaggedEvent) : List TaggedEvent → List TaggedEvent
  | [] => [x]
  | y :: ys =>
    if toMinutes x.time ≤ toMinutes y.time then x :: y :: ys
    else y :: insertByTime x ys

/-- Stable sort ascending by `toMinutes`, modelling
`Array.prototype.sort((a, b) => toMinutes(a.time) - toMinutes(b.time))`
(ECMAScript sort is stable). -/
def sortByTime : List TaggedEvent → List TaggedEvent
  | [] => []
  | x :: xs => insertByTime x (sortByTime xs)

/-- `tideEvents` (App.tsx lines 138–147): tag, concatenate highs then lows,
stable-sort ascending by minutes-since-midnight. -/
def tideEvents (highs lows : List ApiTideEvent) : List TaggedEvent :=
  sortByTime (tagEvents highs lows)

/-- `chartData` (App.tsx lines 108–115): `Array.from({length: 24}, (_, h) =>
({ x: h, label: .., height: hourly[h] !== null ? hourly[h] : undefined }))`. -/
def chartData (hourly : List (Option ℚ)) : List ChartPoint :=
  (List.range 24).map (fun h => ⟨h, pad2 h ++ ":00", nth hourly h⟩)

/-- `lowMarkers` / `highMarkers` (App.tsx lines 149–161): map each event to
`{ x: toHourFraction(time), height: interpolateHeight(x) }` and filter out
the events whose interpolation returned `null`. -/
def markersOf (hourly : List (Option ℚ)) (events : List ApiTideEvent) : List Marker :=
  events.filterMap (fun e =>
    let x := toHourFraction e.time
    (interpolateHeight hourly x).map (fun y => ⟨x, y⟩))

/-! ### `src/unnamed/part_001` — date normalization -/

/-- The fields of a JavaScript `Date` the code reads: `getFullYear()`,
`getMonth()` (0-based month index) and `getDate()` (day of month). -/
structure JSDate where
  fullYear : Nat
  monthIndex : Nat
  dayOfMonth : Nat

/-- `todayJst` (part_001 lines 12–18): the local wall-clock date rendered as
`${yyyy}-${mm}-${dd}` with month (1-based) and day zero-padded to 2 digits. -/
def todayJst (d : JSDate) : String :=
  toString d.fullYear ++ "-" ++ pad2 (d.monthIndex + 1) ++ "-" ++ pad2 d.dayOfMonth

/-- Separator class of the date regex: `'-'`, `'/'` or `'.'`. -/
def isSepChar (c : Char) : Bool := c = '-' || c = '/' || c = '.'

/-- The regex match `s.match(/^(\d{4})[-\/.](\d{1,2})[-\/.](\d{1,2})$/)`
(part_001 line 31), returning the three capture groups on success.  The
month/day groups are maximal digit runs of length 1–2 followed by the
required separator (resp. end of string) — exactly where the backtracking
regex succeeds. -/
def matchDatePattern (s : String) : Option (List Char × List Char × List Char) :=
  match s.toList with
  | y1 :: y2 :: y3 :: y4 :: sep1 :: rest =>
    if y1.isDigit && y2.isDigit && y3.isDigit && y4.isDigit && isSepChar sep1 then
      let mcs := rest.takeWhile Char.isDigit
      let rest2 := rest.dropWhile Char.isDigit
      if mcs.length == 1 || mcs.length == 2 then
        match rest2 with
        | sep2 :: rest3 =>
          if isSepChar sep2 then
            let dcs := rest3.takeWhile Char.isDigit
            let rest4 := rest3.dropWhile Char.isDigit
            if (dcs.length == 1 || dcs.length == 2) && rest4.isEmpty then
              some ([y1, y2, y3, y4], mcs, dcs)
            else none
          else none
        | [] => none
      else none
    else none
  | _ => none

/-- `normalizeDate` (part_001 lines 27–38): trim; empty → `todayJst()`;
non-matching → the trimmed string; matching → year as captured, month and
day re-rendered zero-padded, joined with `-`. -/
def normalizeDate (d : JSDate) (input : String) : String :=
  if jsTrim input = "" then todayJst d
  else
    match matchDatePattern (jsTrim input) with
    | none => jsTrim input
    | some (y, mcs, dcs) =>
      String.mk y ++ "-" ++ pad2 (digitsToNat mcs) ++ "-" ++ pad2 (digitsToNat dcs)

/-! ### Concrete fixtures used by the examples in the claims -/

/-- 24 hourly samples with `hourly[6] = 120` and `hourly[7] = 160`. -/
def exHourlyBr : List (Option ℚ) :=
  List.replicate 6 (some 100) ++ some 120 :: some 160 :: List.replicate 16 (some 100)

/-- 24 hourly samples with `hourly[23] = 77`. -/
def exHourly23 : List (Option ℚ) :=
  List.replicate 23 (some 50) ++ [some 77]

/-- 24 hourly samples with a gap at hour 1: `[100, null, 140, 0, ...]`. -/
def exHourlyGap : List (Option ℚ) :=
  some 100 :: none :: some 140 :: List.replicate 21 (some 0)

/-- 24 hourly samples with the hour-5 sample absent. -/
def exHourlyC6 : List (Option ℚ) :=
  List.replicate 5 (some 50) ++ none :: List.replicate 18 (some 50)

/-- Two events; the first one's base-hour sample is absent in `exHourlyC6`. -/
def exEventsC6 : List ApiTideEvent :=
  [⟨"05:30", 10⟩, ⟨"12:00", 20⟩]

/-! ### Helper lemmas: character classes, trimming and pattern matching -/

lemma isWs_false_of_isDigit (c : Char) (h : c.isDigit = true) : isWs c = false := by
  cases hw : isWs c
  · rfl
  · exfalso
    unfold isWs at hw
    simp only [Char.isWhitespace, Bool.or_eq_true, decide_eq_true_eq] at hw
    rcases hw with ((h1 | h1) | h1) | h1 <;> subst h1 <;> exact absurd h (by decide)

lemma isWs_false_of_isSepChar (c : Char) (h : isSepChar c = true) : isWs c = false := by
  unfold isSepChar at h
  simp only [Bool.or_eq_true, decide_eq_true_eq] at h
  rcases h with (h1 | h1) | h1 <;> subst h1 <;> decide

lemma isDigit_false_of_isSepChar (c : Char) (h : isSepChar c = true) : c.isDigit = false := by
  unfold isSepChar at h
  simp only [Bool.or_eq_true, decide_eq_true_eq] at h
  rcases h with (h1 | h1) | h1 <;> subst h1 <;> decide

lemma dropWhile_eq_self_of_all_false {α : Type} (p : α → Bool) (cs : List α)
    (h : ∀ c ∈ cs, p c = false) : cs.dropWhile p = cs := by
  cases cs with
  | nil => rfl
  | cons c cs => simp [List.dropWhile_cons, h c (List.mem_cons_self c cs)]

lemma trimList_eq_self (cs : List Char) (h : ∀ c ∈ cs, isWs c = false) :
    trimList cs = cs := by
  unfold trimList
  rw [dropWhile_eq_self_of_all_false isWs cs h]
  rw [dropWhile_eq_self_of_all_false isWs cs.reverse (by intro c hc; exact h c (List.mem_reverse.mp hc))]
  exact List.reverse_reverse cs

lemma takeWhile_all_true {α : Type} (p : α → Bool) (xs : List α)
    (h : ∀ x ∈ xs, p x = true) : xs.takeWhile p = xs := by
  induction xs with
  | nil => rfl
  | cons x xs ih =>
    simp [List.takeWhile_cons, h x (List.mem_cons_self x xs),
      ih (fun y hy => h y (List.mem_cons_of_mem x hy))]

lemma dropWhile_all_true {α : Type} (p : α → Bool) (xs : List α)
    (h : ∀ x ∈ xs, p x = true) : xs.dropWhile p = [] := by
  induction xs with
  | nil => rfl
  | cons x xs ih =>
    simp [List.dropWhile_cons, h x (List.mem_cons_self x xs),
      ih (fun y hy => h y (List.mem_cons_of_mem x hy))]

lemma takeWhile_append_stop {α : Type} (p : α → Bool) (xs : List α) (y : α) (ys : List α)
    (hxs : ∀ x ∈ xs, p x = true) (hy : p y = false) :
    (xs ++ y :: ys).takeWhile p = xs := by
  induction xs with
  | nil => simp [List.takeWhile_cons, hy]
  | cons x xs ih =>
    simp [List.takeWhile_cons, hxs x (List.mem_cons_self x xs),
      ih (fun z hz => hxs z (List.mem_cons_of_mem x hz))]

lemma dropWhile_append_stop {α : Type} (p : α → Bool) (xs : List α) (y : α) (ys : List α)
    (hxs : ∀ x ∈ xs, p x = true) (hy : p y = false) :
    (xs ++ y :: ys).dropWhile p = y :: ys := by
  induction xs with
  | nil => simp [List.dropWhile_cons, hy]
  | cons x xs ih =>
    simp [List.dropWhile_cons, hxs x (List.mem_cons_self x xs),
      ih (fun z hz => hxs z (List.mem_cons_of_mem x hz))]

/-! ### Helper lemmas: concrete hour-fraction evaluations -/

lemma tf_0630 : toHourFraction "06:30" = 13 / 2 := by
  have h : toHourFraction "06:30" = ((6 : Nat) : ℚ) + ((30 : Nat) : ℚ) / 60 := rfl
  rw [h]; norm_num

lemma tf_2345 : toHourFraction "23:45" = 95 / 4 := by
  have h : toHourFraction "23:45" = ((23 : Nat) : ℚ) + ((45 : Nat) : ℚ) / 60 := rfl
  rw [h]; norm_num

lemma tf_2330 : toHourFraction "23:30" = 47 / 2 := by
  have h : toHourFraction "23:30" = ((23 : Nat) : ℚ) + ((30 : Nat) : ℚ) / 60 := rfl
  rw [h]; norm_num

lemma tf_0530 : toHourFraction "05:30" = 11 / 2 := by
  have h : toHourFraction "05:30" = ((5 : Nat) : ℚ) + ((30 : Nat) : ℚ) / 60 := rfl
  rw [h]; norm_num

lemma tf_1200 : toHourFraction "12:00" = 12 := by
  have h : toHourFraction "12:00" = ((12 : Nat) : ℚ) + ((0 : Nat) : ℚ) / 60 := rfl
  rw [h]; norm_num

lemma floor_half13 : ⌊(13 : ℚ) / 2⌋ = 6 := by norm_num [Int.floor_eq_iff]

lemma floor_quarter95 : ⌊(95 : ℚ) / 4⌋ = 23 := by norm_num [Int.floor_eq_iff]

lemma floor_half11 : ⌊(11 : ℚ) / 2⌋ = 5 := by norm_num [Int.floor_eq_iff]

lemma floor_twelve : ⌊(12 : ℚ)⌋ = 12 := by norm_num

/-! ### Helper lemmas: `interpolateHeight` case analysis -/

lemma nthI_23 (hourly : List (Option ℚ)) : nthI hourly (23 : Int) = nth hourly 23 := rfl

lemma interp_base_none (hourly : List (Option ℚ)) (f : ℚ)
    (h : nthI hourly ⌊f⌋ = none) : interpolateHeight hourly f = none := by
  simp [interpolateHeight, h]

lemma interp_base23 (hourly : List (Option ℚ)) (f : ℚ) (h23 : ⌊f⌋ = 23) :
    interpolateHeight hourly f = nth hourly 23 := by
  unfold interpolateHeight
  rw [h23, nthI_23]
  rcases hv : nth hourly 23 with _ | v
  · rfl
  · simp

lemma interp_formula (hourly : List (Option ℚ)) (f : ℚ) (v0 v1 : ℚ)
    (hne : ⌊f⌋ ≠ 23) (h0 : nthI hourly ⌊f⌋ = some v0)
    (h1 : nthI hourly (min 23 (⌊f⌋ + 1)) = some v1) :
    interpolateHeight hourly f = some (v0 + (v1 - v0) * (f - (⌊f⌋ : ℚ))) := by
  simp [interpolateHeight, h0, h1, hne]

lemma interp_flat (hourly : List (Option ℚ)) (f : ℚ) (v0 : ℚ)
    (hlt : ⌊f⌋ < 23) (h0 : nthI hourly ⌊f⌋ = some v0)
    (h1 : nthI hourly (⌊f⌋ + 1) = none) :
    interpolateHeight hourly f = some v0 := by
  have hmin : min 23 (⌊f⌋ + 1) = ⌊f⌋ + 1 := min_eq_right (by omega)
  have hne : ⌊f⌋ ≠ 23 := by omega
  simp [interpolateHeight, h0, hmin, h1, hne]

lemma interp_between (hourly : List (Option ℚ)) (f : ℚ) (v0 v1 : ℚ)
    (hlt : ⌊f⌋ < 23) (h0 : nthI hourly ⌊f⌋ = some v0)
    (h1 : nthI hourly (⌊f⌋ + 1) = some v1) :
    ∃ r : ℚ, interpolateHeight hourly f = some r ∧ min v0 v1 ≤ r ∧ r ≤ max v0 v1 := by
  have hmin : min 23 (⌊f⌋ + 1) = ⌊f⌋ + 1 := min_eq_right (by omega)
  have hne : ⌊f⌋ ≠ 23 := by omega
  refine ⟨v0 + (v1 - v0) * (f - (⌊f⌋ : ℚ)),
    interp_formula hourly f v0 v1 hne h0 (by rw [hmin]; exact h1), ?_, ?_⟩
  · have hfr0 : 0 ≤ f - (⌊f⌋ : ℚ) := by
      have := Int.floor_le f
      linarith
    have hfr1 : f - (⌊f⌋ : ℚ) < 1 := by
      have := Int.lt_floor_add_one f
      linarith
    rcases le_total v0 v1 with h | h
    · rw [min_eq_left h]; nlinarith
    · rw [min_eq_right h]; nlinarith
  · have hfr0 : 0 ≤ f - (⌊f⌋ : ℚ) := by
      have := Int.floor_le f
      linarith
    have hfr1 : f - (⌊f⌋ : ℚ) < 1 := by
      have := Int.lt_floor_add_one f
      linarith
    rcases le_total v0 v1 with h | h
    · rw [max_eq_right h]; nlinarith
    · rw [max_eq_left h]; nlinarith

/-! ### Helper lemmas: the stable sort inside `tideEvents` -/

lemma insertByTime_perm (x : TaggedEvent) (l : List TaggedEvent) :
    (insertByTime x l).Perm (x :: l) := by
  induction l with
  | nil => simp [insertByTime]
  | cons y ys ih =>
    by_cases h : toMinutes x.time ≤ toMinutes y.time
    · simp [insertByTime, h]
    · simp only [insertByTime, if_neg h]
      exact (ih.cons y).trans (List.Perm.swap x y ys)

lemma sortByTime_perm (l : List TaggedEvent) : (sortByTime l).Perm l := by
  induction l with
  | nil => exact List.Perm.refl []
  | cons x xs ih => exact (insertByTime_perm x (sortByTime xs)).trans (ih.cons x)

lemma insertByTime_pairwise (x : TaggedEvent) (l : List TaggedEvent)
    (hl : l.Pairwise fun a b => toMinutes a.time ≤ toMinutes b.time) :
    (insertByTime x l).Pairwise fun a b => toMinutes a.time ≤ toMinutes b.time := by
  induction l with
  | nil => simp [insertByTime]
  | cons y ys ih =>
    rcases List.pairwise_cons.mp hl with ⟨hy, hys⟩
    by_cases h : toMinutes x.time ≤ toMinutes y.time
    · simp only [insertByTime, if_pos h]
      refine List.pairwise_cons.mpr ⟨?_, hl⟩
      intro z hz
      rcases List.mem_cons.mp hz with rfl | hz
      · exact h
      · exact le_trans h (hy z hz)
    · simp only [insertByTime, if_neg h]
      refine List.pairwise_cons.mpr ⟨?_, ih hys⟩
      intro z hz
      have hz2 : z ∈ x :: ys := (insertByTime_perm x ys).mem_iff.mp hz
      rcases List.mem_cons.mp hz2 with rfl | hz2
      · exact le_of_not_le h
      · exact hy z hz2

lemma sortByTime_pairwise (l : List TaggedEvent) :
    (sortByTime l).Pairwise fun a b => toMinutes a.time ≤ toMinutes b.time := by
  induction l with
  | nil => simp [sortByTime]
  | cons x xs ih => exact insertByTime_pairwise x (sortByTime xs) ih

lemma insertByTime_filter_key (x : TaggedEvent) (l : List TaggedEvent) (k : Nat) :
    (insertByTime x l).filter (fun e => toMinutes e.time == k)
      = (x :: l).filter (fun e => toMinutes e.time == k) := by
  induction l with
  | nil => rfl
  | cons y ys ih =>
    by_cases h : toMinutes x.time ≤ toMinutes y.time
    · simp [insertByTime, h]
    · have hyx : toMinutes y.time < toMinutes x.time := not_le.mp h
      simp only [insertByTime, if_neg h, List.filter_cons]
      rw [ih]
      by_cases hx : toMinutes x.time = k
      · have hy : ¬ toMinutes y.time = k := by omega
        simp [List.filter_cons, hx, hy]
      · simp [List.filter_cons, hx]

lemma sortByTime_filter_key (l : List TaggedEvent) (k : Nat) :
    (sortByTime l).filter (fun e => toMinutes e.time == k)
      = l.filter (fun e => toMinutes e.time == k) := by
  induction l with
  | nil => rfl
  | cons x xs ih =>
    rw [sortByTime, insertByTime_filter_key]
    simp only [List.filter_cons]
    rw [ih]

/-! ### Claim theorems -/

/-- C1: for every fractional hour `f` and hourly sample array, the
interpolated height follows the reference definition: with
`base = ⌊f⌋` and `next = min 23 (base + 1)`, if `base = 23` the result is
the sample at 23 unmodified, and otherwise, when both bracketing samples
are present, the result is `v0 + (v1 - v0) * (f - base)`; in particular an
event at "06:30" with `hourly[6] = 120` and `hourly[7] = 160` yields 140,
and an event at "23:45" yields `hourly[23]` exactly. -/
theorem interpolateHeight_matches_reference (hourly : List (Option ℚ)) (f : ℚ) :
    (⌊f⌋ = 23 → interpolateHeight hourly f = nth hourly 23)
    ∧ (∀ v0 v1 : ℚ, ⌊f⌋ ≠ 23 → nthI hourly ⌊f⌋ = some v0 →
        nthI hourly (min 23 (⌊f⌋ + 1)) = some v1 →
        interpolateHeight hourly f = some (v0 + (v1 - v0) * (f - (⌊f⌋ : ℚ))))
    ∧ interpolateHeight exHourlyBr (toHourFraction "06:30") = some 140
    ∧ interpolateHeight exHourly23 (toHourFraction "23:45") = nth exHourly23 23 := by
  refine ⟨fun h23 => interp_base23 hourly f h23,
    fun v0 v1 hne h0 h1 => interp_formula hourly f v0 v1 hne h0 h1, ?_, ?_⟩
  · have h := interp_formula exHourlyBr (13 / 2) 120 160
      (by rw [floor_half13]; decide) (by rw [floor_half13]; decide)
      (by rw [floor_half13]; decide)
    rw [tf_0630, h, floor_half13]
    norm_num
  · rw [tf_2345]
    exact interp_base23 exHourly23 (95 / 4) floor_quarter95

/-- Witness for C1: applying the `base = 23` branch of the reference
characterization at the concrete fraction 95/4 (the "23:45" event). -/
theorem interpolateHeight_matches_reference_w :
    interpolateHeight exHourly23 ((95 : ℚ) / 4) = nth exHourly23 23 :=
  (interpolateHeight_matches_reference exHourly23 ((95 : ℚ) / 4)).1 floor_quarter95

/-- C2: the merged tide-event list is the highs-then-lows tagged
concatenation, sorted ascending by minutes-since-midnight, stably: it is
pairwise sorted by the parsed key, it is a permutation of the tagged
concatenation, and filtering by any key value preserves the concatenation
order (equal-timestamp events keep their relative input order); in
particular a low event at "03:00" is placed before a high event at
"09:00". -/
theorem tideEvents_merge_sorted_stable (highs lows : List ApiTideEvent) :
    (tideEvents highs lows).Pairwise (fun a b => toMinutes a.time ≤ toMinutes b.time)
    ∧ (tideEvents highs lows).Perm (tagEvents highs lows)
    ∧ (∀ k : Nat, (tideEvents highs lows).filter (fun e => toMinutes e.time == k)
        = (tagEvents highs lows).filter (fun e => toMinutes e.time == k))
    ∧ tideEvents [⟨"09:00", 100⟩] [⟨"03:00", 50⟩]
        = [⟨"干潮", "03:00", 50⟩, ⟨"満潮", "09:00", 100⟩] :=
  ⟨sortByTime_pairwise _, sortByTime_perm _,
    fun k => sortByTime_filter_key _ k, by decide⟩

/-- Witness for C2: the sortedness component at a concrete pair of
event lists. -/
theorem tideEvents_merge_sorted_stable_w :
    (tideEvents [⟨"09:00", 100⟩] [⟨"03:00", 50⟩]).Pairwise
      (fun a b => toMinutes a.time ≤ toMinutes b.time) :=
  (tideEvents_merge_sorted_stable [⟨"09:00", 100⟩] [⟨"03:00", 50⟩]).1

/-- C4 counterexample: the claim asserts the hour fraction always lies in
`[0, 23]`, but the event "23:30" maps to `23 + 30/60 = 47/2 > 23`. -/
theorem toHourFraction_range_counterexample :
    toHourFraction "23:30" = 47 / 2 ∧ ¬ (toHourFraction "23:30" ≤ 23) := by
  refine ⟨tf_2330, ?_⟩
  rw [tf_2330]
  norm_num

/-- C4 (amended): the time-to-fraction conversion returns
`hour + minute / 60` with the parsed hour clamped to `[0, 23]` and the
parsed minute clamped to `[0, 59]` (non-numeric components treated as 0),
and the resulting hour fraction lies in `[0, 24)` (at most `23 + 59/60`),
not in `[0, 23]`. -/
theorem toHourFraction_clamped_and_bounded (t : String) :
    (∃ h m : Nat,
      h = min 23 (max 0 (numOrZero ((splitOnChar ':' t.toList).getD 0 [])))
      ∧ m = min 59 (max 0 (numOrZero ((splitOnChar ':' t.toList).getD 1 ['0'])))
      ∧ toHourFraction t = (h : ℚ) + (m : ℚ) / 60 ∧ h ≤ 23 ∧ m ≤ 59)
    ∧ 0 ≤ toHourFraction t ∧ toHourFraction t ≤ 23 + 59 / 60
    ∧ toHourFraction t < 24 := by
  have hh : min 23 (max 0 (numOrZero ((splitOnChar ':' t.toList).getD 0 []))) ≤ 23 :=
    min_le_left _ _
  have hm : min 59 (max 0 (numOrZero ((splitOnChar ':' t.toList).getD 1 ['0']))) ≤ 59 :=
    min_le_left _ _
  have heq : toHourFraction t
      = ((min 23 (max 0 (numOrZero ((splitOnChar ':' t.toList).getD 0 []))) : Nat) : ℚ)
        + ((min 59 (max 0 (numOrZero ((splitOnChar ':' t.toList).getD 1 ['0']))) : Nat) : ℚ) / 60 :=
    rfl
  have hhq : ((min 23 (max 0 (numOrZero ((splitOnChar ':' t.toList).getD 0 []))) : Nat) : ℚ) ≤ 23 := by
    exact_mod_cast hh
  have hmq : ((min 59 (max 0 (numOrZero ((splitOnChar ':' t.toList).getD 1 ['0']))) : Nat) : ℚ) ≤ 59 := by
    exact_mod_cast hm
  have hh0 : (0 : ℚ) ≤ ((min 23 (max 0 (numOrZero ((splitOnChar ':' t.toList).getD 0 []))) : Nat) : ℚ) := by
    positivity
  have hm0 : (0 : ℚ) ≤ ((min 59 (max 0 (numOrZero ((splitOnChar ':' t.toList).getD 1 ['0']))) : Nat) : ℚ) := by
    positivity
  refine ⟨⟨_, _, rfl, rfl, heq, hh, hm⟩, ?_, ?_, ?_⟩
  · rw [heq]; linarith
  · rw [heq]; linarith
  · rw [heq]; linarith

/-- C5: the derived plotting series always has exactly 24 points, the
point at index `h` carries hour `h`, label `HH:00` and that hour's sample
(absent samples yield an absent height, the point is still emitted); in
particular for `[100, null, 140, ...]` the point at index 1 has an absent
height while indices 0 and 2 retain 100 and 140. -/
theorem chartData_dense_series (hourly : List (Option ℚ)) :
    (chartData hourly).length = 24
    ∧ (∀ i : Nat, i < 24 →
        (chartData hourly).get? i = some ⟨i, pad2 i ++ ":00", nth hourly i⟩)
    ∧ (chartData exHourlyGap).get? 0 = some ⟨0, "00:00", some 100⟩
    ∧ (chartData exHourlyGap).get? 1 = some ⟨1, "01:00", none⟩
    ∧ (chartData exHourlyGap).get? 2 = some ⟨2, "02:00", some 140⟩ := by
  refine ⟨by simp [chartData], ?_, by decide, by decide, by decide⟩
  intro i hi
  simp only [chartData, List.get?_eq_getElem?, List.getElem?_map,
    List.getElem?_range hi, Option.map_some']

/-- Witness for C5: the per-index description applied at index 3 of the
gap example. -/
theorem chartData_dense_series_w :
    (chartData exHourlyGap).get? 3 = some ⟨3, pad2 3 ++ ":00", nth exHourlyGap 3⟩ :=
  (chartData_dense_series exHourlyGap).2.1 3 (by decide)

/-- C6: if the sample at the event's base hour is absent, interpolation
yields nothing and the event contributes no marker; if `base < 23`, the
base sample is present and the sample at `base + 1` is absent, the marker
height is the base sample value unmodified (flat extrapolation); the
marker list keeps exactly the events whose interpolation succeeded, so a
single failing event makes it one shorter than the event list. -/
theorem interpolate_absent_handling :
    (∀ (hourly : List (Option ℚ)) (f : ℚ),
        nthI hourly ⌊f⌋ = none → interpolateHeight hourly f = none)
    ∧ (∀ (hourly : List (Option ℚ)) (f : ℚ) (v0 : ℚ), ⌊f⌋ < 23 →
        nthI hourly ⌊f⌋ = some v0 → nthI hourly (⌊f⌋ + 1) = none →
        interpolateHeight hourly f = some v0)
    ∧ (∀ (hourly : List (Option ℚ)) (events : List ApiTideEvent),
        (markersOf hourly events).length =
          (events.filter fun e =>
            (interpolateHeight hourly (toHourFraction e.time)).isSome).length)
    ∧ (markersOf exHourlyC6 exEventsC6).length + 1 = exEventsC6.length := by
  refine ⟨fun hourly f h => interp_base_none hourly f h,
    fun hourly f v0 hlt h0 h1 => interp_flat hourly f v0 hlt h0 h1, ?_, ?_⟩
  · intro hourly events
    induction events with
    | nil => rfl
    | cons e es ih =>
      simp only [markersOf, List.filterMap_cons, List.filter_cons] at *
      cases h : interpolateHeight hourly (toHourFraction e.time) with
      | none => simpa [h] using ih
      | some v => simp [h, ih]
  · have h1 : interpolateHeight exHourlyC6 (toHourFraction "05:30") = none := by
      rw [tf_0530]
      exact interp_base_none _ _ (by rw [floor_half11]; decide)
    have h2 : interpolateHeight exHourlyC6 (toHourFraction "12:00")
        = some (50 + (50 - 50) * ((12 : ℚ) - ((12 : Int) : ℚ))) := by
      rw [tf_1200]
      exact interp_formula _ _ _ _ (by rw [floor_twelve]; decide)
        (by rw [floor_twelve]; decide) (by rw [floor_twelve]; decide)
    simp [markersOf, exEventsC6, List.filterMap_cons, h1, h2]

/-- Witness for C6: the base-absent branch at the concrete fraction 11/2
(the "05:30" event over `exHourlyC6`). -/
theorem interpolate_absent_handling_w :
    interpolateHeight exHourlyC6 ((11 : ℚ) / 2) = none :=
  interpolate_absent_handling.1 exHourlyC6 ((11 : ℚ) / 2)
    (by rw [floor_half11]; decide)

/-- C10: for every event time whose fractional hour has `base = ⌊f⌋ < 23`
and whose bracketing samples are both present, the emitted marker height
is a convex combination of the two samples: it lies between their minimum
and maximum. -/
theorem marker_within_bracketing_samples (hourly : List (Option ℚ)) (t : String)
    (v0 v1 : ℚ) (hlt : ⌊toHourFraction t⌋ < 23)
    (h0 : nthI hourly ⌊toHourFraction t⌋ = some v0)
    (h1 : nthI hourly (⌊toHourFraction t⌋ + 1) = some v1) :
    ∃ r : ℚ, interpolateHeight hourly (toHourFraction t) = some r
      ∧ min v0 v1 ≤ r ∧ r ≤ max v0 v1 :=
  interp_between hourly (toHourFraction t) v0 v1 hlt h0 h1

/-- Witness for C10: the "06:30" event over samples 120 and 160. -/
theorem marker_within_bracketing_samples_w :
    ∃ r : ℚ, interpolateHeight exHourlyBr (toHourFraction "06:30") = some r
      ∧ min (120 : ℚ) 160 ≤ r ∧ r ≤ max (120 : ℚ) 160 :=
  marker_within_bracketing_samples exHourlyBr "06:30" 120 160
    (by rw [tf_0630, floor_half13]; decide)
    (by rw [tf_0630, floor_half13]; decide)
    (by rw [tf_0630, floor_half13]; decide)

/-- C3: every string of the form `year(4 digits) sep month(1-2 digits) sep
day(1-2 digits)` with separators among `-`, `/`, `.` normalizes to the year
unchanged and the month and day re-rendered zero-padded to two digits,
joined with `-`, with no range validation. -/
theorem normalizeDate_canonicalizes (d : JSDate) (y1 y2 y3 y4 s1 s2 : Char)
    (mcs dcs : List Char)
    (hy1 : y1.isDigit = true) (hy2 : y2.isDigit = true)
    (hy3 : y3.isDigit = true) (hy4 : y4.isDigit = true)
    (hs1 : isSepChar s1 = true) (hs2 : isSepChar s2 = true)
    (hm0 : mcs ≠ []) (hm2 : mcs.length ≤ 2) (hmd : ∀ c ∈ mcs, c.isDigit = true)
    (hd0 : dcs ≠ []) (hd2 : dcs.length ≤ 2) (hdd : ∀ c ∈ dcs, c.isDigit = true) :
    normalizeDate d ⟨y1 :: y2 :: y3 :: y4 :: s1 :: (mcs ++ s2 :: dcs)⟩
      = String.mk [y1, y2, y3, y4] ++ "-" ++ pad2 (digitsToNat mcs)
        ++ "-" ++ pad2 (digitsToNat dcs) := by
  have hall : ∀ c ∈ y1 :: y2 :: y3 :: y4 :: s1 :: (mcs ++ s2 :: dcs), isWs c = false := by
    intro c hc
    simp only [List.mem_cons, List.mem_append] at hc
    rcases hc with rfl | rfl | rfl | rfl | rfl | hc | rfl | hc
    · exact isWs_false_of_isDigit _ hy1
    · exact isWs_false_of_isDigit _ hy2
    · exact isWs_false_of_isDigit _ hy3
    · exact isWs_false_of_isDigit _ hy4
    · exact isWs_false_of_isSepChar _ hs1
    · exact isWs_false_of_isDigit _ (hmd _ hc)
    · exact isWs_false_of_isSepChar _ hs2
    · exact isWs_false_of_isDigit _ (hdd _ hc)
  have htoList : (String.mk (y1 :: y2 :: y3 :: y4 :: s1 :: (mcs ++ s2 :: dcs))).toList
      = y1 :: y2 :: y3 :: y4 :: s1 :: (mcs ++ s2 :: dcs) := rfl
  have htrim : jsTrim ⟨y1 :: y2 :: y3 :: y4 :: s1 :: (mcs ++ s2 :: dcs)⟩
      = ⟨y1 :: y2 :: y3 :: y4 :: s1 :: (mcs ++ s2 :: dcs)⟩ := by
    unfold jsTrim
    rw [htoList, trimList_eq_self _ hall]
  have hne : (String.mk (y1 :: y2 :: y3 :: y4 :: s1 :: (mcs ++ s2 :: dcs))) ≠ "" := by
    intro h
    have h2 := congrArg String.data h
    simp at h2
  have hmpos : 0 < mcs.length := List.length_pos.mpr hm0
  have hdpos : 0 < dcs.length := List.length_pos.mpr hd0
  have hmlen : (mcs.length == 1 || mcs.length == 2) = true := by
    simp only [Bool.or_eq_true, beq_iff_eq]
    omega
  have hdlen : (dcs.length == 1 || dcs.length == 2) = true := by
    simp only [Bool.or_eq_true, beq_iff_eq]
    omega
  have hsd2 : s2.isDigit = false := isDigit_false_of_isSepChar s2 hs2
  have hmatch : matchDatePattern ⟨y1 :: y2 :: y3 :: y4 :: s1 :: (mcs ++ s2 :: dcs)⟩
      = some ([y1, y2, y3, y4], mcs, dcs) := by
    simp only [matchDatePattern, htoList, hy1, hy2, hy3, hy4, hs1,
      Bool.and_self, Bool.and_true, Bool.true_and, if_true,
      takeWhile_append_stop Char.isDigit mcs s2 dcs hmd hsd2,
      dropWhile_append_stop Char.isDigit mcs s2 dcs hmd hsd2,
      hmlen, hs2, hdlen,
      takeWhile_all_true Char.isDigit dcs hdd,
      dropWhile_all_true Char.isDigit dcs hdd,
      List.isEmpty_nil]
  unfold normalizeDate
  rw [htrim, if_neg hne, hmatch]

/-- Witness for C3: `normalize("2024/3/5")`, `normalize("2024.3.5")` and
`normalize("2024-3-5")` all equal `"2024-03-05"`. -/
theorem normalizeDate_canonicalizes_w :
    normalizeDate ⟨2025, 0, 1⟩ "2024/3/5" = "2024-03-05"
    ∧ normalizeDate ⟨2025, 0, 1⟩ "2024.3.5" = "2024-03-05"
    ∧ normalizeDate ⟨2025, 0, 1⟩ "2024-3-5" = "2024-03-05" := by
  refine ⟨?_, ?_, ?_⟩
  · exact normalizeDate_canonicalizes ⟨2025, 0, 1⟩ '2' '0' '2' '4' '/' '/' ['3'] ['5']
      (by decide) (by decide) (by decide) (by decide) (by decide) (by decide)
      (by decide) (by decide) (by decide) (by decide) (by decide) (by decide)
  · exact normalizeDate_canonicalizes ⟨2025, 0, 1⟩ '2' '0' '2' '4' '.' '.' ['3'] ['5']
      (by decide) (by decide) (by decide) (by decide) (by decide) (by decide)
      (by decide) (by decide) (by decide) (by decide) (by decide) (by decide)
  · exact normalizeDate_canonicalizes ⟨2025, 0, 1⟩ '2' '0' '2' '4' '-' '-' ['3'] ['5']
      (by decide) (by decide) (by decide) (by decide) (by decide) (by decide)
      (by decide) (by decide) (by decide) (by decide) (by decide) (by decide)

/-- C7 counterexample: the claim promises the input back verbatim, but on
an input with surrounding whitespace the code returns the trimmed string,
not the input. -/
theorem normalizeDate_passthrough_counterexample :
    normalizeDate ⟨2025, 0, 1⟩ " not-a-date" = "not-a-date"
    ∧ " not-a-date" ≠ "not-a-date" :=
  ⟨by decide, by decide⟩

/-- C7 (amended): for every input whose trimmed form is non-empty and does
not match the date pattern, `normalizeDate` returns the trimmed input
unchanged (which is the input verbatim exactly when the input carries no
surrounding whitespace). -/
theorem normalizeDate_passthrough_trimmed (d : JSDate) (s : String)
    (h1 : jsTrim s ≠ "") (h2 : matchDatePattern (jsTrim s) = none) :
    normalizeDate d s = jsTrim s := by
  unfold normalizeDate
  rw [if_neg h1, h2]

/-- Witness for C7 (amended): `normalize("not-a-date")` returns
`"not-a-date"` unchanged. -/
theorem normalizeDate_passthrough_trimmed_w :
    normalizeDate ⟨2025, 0, 1⟩ "not-a-date" = jsTrim "not-a-date" :=
  normalizeDate_passthrough_trimmed ⟨2025, 0, 1⟩ "not-a-date" (by decide) (by decide)

/-- C8: on empty or whitespace-only input, `normalizeDate` returns the
current local calendar date rendered as the year, the zero-padded 1-based
month and the zero-padded day joined with `-` (the wall clock is modelled
as the explicit `JSDate` argument). -/
theorem normalizeDate_defaults_to_today (d : JSDate) (input : String)
    (h : jsTrim input = "") :
    normalizeDate d input = todayJst d
    ∧ todayJst d = toString d.fullYear ++ "-" ++ pad2 (d.monthIndex + 1)
        ++ "-" ++ pad2 d.dayOfMonth := by
  constructor
  · unfold normalizeDate
    rw [h, if_pos rfl]
  · rfl

/-- Witness for C8: a whitespace-only input on 2025-09-30 (month index 8)
yields `"2025-09-30"`. -/
theorem normalizeDate_defaults_to_today_w :
    normalizeDate ⟨2025, 8, 30⟩ "   " = todayJst ⟨2025, 8, 30⟩
    ∧ todayJst ⟨2025, 8, 30⟩ = "2025-09-30" :=
  ⟨(normalizeDate_defaults_to_today ⟨2025, 8, 30⟩ "   " (by decide)).1, by decide⟩

/-- C9: `normalizeDate` is a no-op on the already-canonical date
`"2024-03-05"`, and applying it to its own output returns the same
string. -/
theorem normalizeDate_canonical_noop (d : JSDate) :
    normalizeDate d "2024-03-05" = "2024-03-05"
    ∧ normalizeDate d (normalizeDate d "2024-03-05") = normalizeDate d "2024-03-05" :=
  ⟨rfl, rfl⟩

/-- Witness for C9: the no-op at a concrete clock value. -/
theorem normalizeDate_canonical_noop_w :
    normalizeDate ⟨2025, 0, 1⟩ "2024-03-05" = "2024-03-05" :=
  (normalizeDate_canonical_noop ⟨2025, 0, 1⟩).1

/-- Witness for C4 (amended): the bounds at the concrete event "23:30". -/
theorem toHourFraction_clamped_and_bounded_w :
    0 ≤ toHourFraction "23:30" ∧ toHourFraction "23:30" < 24 :=
  ⟨(toHourFraction_clamped_and_bounded "23:30").2.1,
    (toHourFraction_clamped_and_bounded "23:30").2.2.2⟩

end TsuribaUI
